import Mathlib

/-!
Verification of the client-side utility module of the repository
(`static/js/main.js`, plus a second near-duplicate copy of the same file).

The JavaScript code is shallowly embedded: each source function becomes a
Lean definition.  Host-environment primitives (the `confirm` dialog,
`new Date` parsing, `toLocaleDateString("fr-FR", …)` rendering, the DOM)
are modelled explicitly as Lean data and functions, since the source code
only glues them together:

* `confirm` is modelled by a user oracle `String → Bool` (the message shown
  and the user's answer);
* `new Date(s)` is modelled by `jsNewDate`, a parser of the ISO local
  date / date-time string forms, returning `none` for an invalid date;
* `toLocaleDateString("fr-FR", {year numeric, month long, day numeric,
  hour 2-digit, minute 2-digit})` is modelled by `toLocaleDateString_frFR`,
  producing the "5 mars 2024 à 14:30" shape, and `"Invalid Date"` on an
  invalid date;
* the page tree is modelled by a rose tree of elements with identities and
  class lists; `classList.toggle`, `closest(".alert")` and `remove()` are
  modelled structurally on it.
-/

/-! ### Access-check stub (`checkAccess`, static/js/main.js lines 45-48)

```js
function checkAccess(action) {
  // À implémenter si besoin de vérifications AJAX
  return true;
}
```
The argument may be absent (`undefined`), hence `Option String`. -/

def checkAccess (action : Option String) : Bool := true

/-- The identical `checkAccess` of the second source copy (unnamed file,
lines 22-25). -/
def checkAccess_alt (action : Option String) : Bool := true

/-! ### Delete confirmation (`confirmDelete`, static/js/main.js lines 27-29)

```js
function confirmDelete(message) {
  return confirm(message || "Êtes-vous sûr de vouloir supprimer cet élément ?");
}
``` -/

def defaultDeleteMessage : String :=
  "Êtes-vous sûr de vouloir supprimer cet élément ?"

/-- JavaScript `a || b` on an optional string argument: `undefined` and the
empty string are falsy, every other string is truthy. -/
def jsStringOr (a : Option String) (b : String) : String :=
  match a with
  | none => b
  | some s => if s = "" then b else s

/-- The message that `confirmDelete` passes to the blocking `confirm`
dialog. -/
def confirmShownMessage (message : Option String) : String :=
  jsStringOr message defaultDeleteMessage

/-- `confirmDelete`, with the host `confirm` dialog modelled by the oracle
`user` mapping the displayed message to the user's boolean answer. -/
def confirmDelete (message : Option String) (user : String → Bool) : Bool :=
  user (confirmShownMessage message)

/-- The identical `confirmDelete` of the second source copy (unnamed file,
lines 5-7). -/
def confirmShownMessage_alt (message : Option String) : String :=
  jsStringOr message defaultDeleteMessage

def confirmDelete_alt (message : Option String) (user : String → Bool) : Bool :=
  user (confirmShownMessage_alt message)

/-! ### Model of the host date primitives -/

/-- A valid JavaScript date value (the fields `new Date` exposes that the
formatting options of the source use).  An invalid date is `none` at use
sites. -/
structure JsDate where
  year : Nat
  month : Nat
  day : Nat
  hour : Nat
  minute : Nat
  second : Nat
deriving DecidableEq

def isDigitCh (c : Char) : Bool := '0' ≤ c && c ≤ '9'

def digitVal (c : Char) : Nat := c.toNat - 48

def num2 (a b : Char) : Nat := 10 * digitVal a + digitVal b

def num4 (a b c d : Char) : Nat :=
  1000 * digitVal a + 100 * digitVal b + 10 * digitVal c + digitVal d

def isLeapYear (y : Nat) : Bool :=
  (y % 4 == 0 && y % 100 != 0) || y % 400 == 0

def daysInMonth (y m : Nat) : Nat :=
  if m = 2 then (if isLeapYear y then 29 else 28)
  else if m = 4 ∨ m = 6 ∨ m = 9 ∨ m = 11 then 30
  else 31

/-- Field-range validation performed by ISO date-string parsing: an
out-of-range component makes the whole date invalid (JavaScript yields an
Invalid Date rather than rolling over, for ISO-format strings). -/
def mkValidDate (y mo d h mi se : Nat) : Option JsDate :=
  if 1 ≤ mo ∧ mo ≤ 12 ∧ 1 ≤ d ∧ d ≤ daysInMonth y mo ∧
     h ≤ 23 ∧ mi ≤ 59 ∧ se ≤ 59 then
    some ⟨y, mo, d, h, mi, se⟩
  else none

/-- Parser for the ISO local forms `YYYY-MM-DD`, `YYYY-MM-DDTHH:MM` and
`YYYY-MM-DDTHH:MM:SS`; every other character sequence is an invalid
date. -/
def parseIsoChars : List Char → Option JsDate
  | [a, b, c, d, '-', e, f, '-', g, h] =>
    if ([a, b, c, d, e, f, g, h].all isDigitCh) then
      mkValidDate (num4 a b c d) (num2 e f) (num2 g h) 0 0 0
    else none
  | [a, b, c, d, '-', e, f, '-', g, h, 'T', i, j, ':', k, l] =>
    if ([a, b, c, d, e, f, g, h, i, j, k, l].all isDigitCh) then
      mkValidDate (num4 a b c d) (num2 e f) (num2 g h) (num2 i j) (num2 k l) 0
    else none
  | [a, b, c, d, '-', e, f, '-', g, h, 'T', i, j, ':', k, l, ':', m, n] =>
    if ([a, b, c, d, e, f, g, h, i, j, k, l, m, n].all isDigitCh) then
      mkValidDate (num4 a b c d) (num2 e f) (num2 g h) (num2 i j) (num2 k l)
        (num2 m n)
    else none
  | _ => none

/-- Model of the host `new Date(string)` constructor on the ISO string
forms: `none` is JavaScript's Invalid Date. -/
def jsNewDate (s : String) : Option JsDate := parseIsoChars s.data

def frenchMonthName : Nat → String
  | 1 => "janvier"
  | 2 => "février"
  | 3 => "mars"
  | 4 => "avril"
  | 5 => "mai"
  | 6 => "juin"
  | 7 => "juillet"
  | 8 => "août"
  | 9 => "septembre"
  | 10 => "octobre"
  | 11 => "novembre"
  | 12 => "décembre"
  | _ => ""

def frenchLongMonths : List String :=
  ["janvier", "février", "mars", "avril", "mai", "juin", "juillet",
   "août", "septembre", "octobre", "novembre", "décembre"]

def pad2 (n : Nat) : String := if n < 10 then "0" ++ toString n else toString n

/-- Model of `date.toLocaleDateString("fr-FR", {year: "numeric",
month: "long", day: "numeric", hour: "2-digit", minute: "2-digit"})` on a
valid date: the French long-month rendering with an hour:minute portion,
e.g. `"5 mars 2024 à 14:30"`. -/
def toLocaleDateString_frFR (d : JsDate) : String :=
  toString d.day ++ " " ++ frenchMonthName d.month ++ " " ++ toString d.year ++
    " à " ++ pad2 d.hour ++ ":" ++ pad2 d.minute

/-- On an invalid date every rendering method of the host yields the fixed
`"Invalid Date"` placeholder. -/
def renderJsDate : Option JsDate → String
  | none => "Invalid Date"
  | some d => toLocaleDateString_frFR d

/-! ### Date formatting (`formatDate`, static/js/main.js lines 32-42)

```js
function formatDate(dateString) {
  if (!dateString) return "";
  const date = new Date(dateString);
  return date.toLocaleDateString("fr-FR", { … });
}
```
The argument may be absent (`undefined`), hence `Option String`; the JS
guard `!dateString` is true exactly for `undefined` and `""`. -/

def formatDate (dateString : Option String) : String :=
  match dateString with
  | none => ""
  | some s => if s = "" then "" else renderJsDate (jsNewDate s)

/-- The near-duplicate `formatDate` of the second source copy (unnamed
file, lines 10-19), which omits the empty-string guard:

```js
function formatDate(dateString) {
    const date = new Date(dateString);
    return date.toLocaleDateString('fr-FR', { … });
}
``` -/
def formatDate_alt (dateString : String) : String :=
  renderJsDate (jsNewDate dateString)

/-! ### Model of the page tree (DOM)

Used by the `DOMContentLoaded` handler (static/js/main.js lines 5-22).
An element has an identity (modelling JavaScript object identity), a class
list and children; a page is a forest of elements.  A `DOMTokenList` holds
no duplicate tokens, so class tests are plain membership. -/

mutual

inductive Elem : Type where
  | mk : Nat → List String → Forest → Elem

inductive Forest : Type where
  | nil : Forest
  | cons : Elem → Forest → Forest

end

def Elem.eid : Elem → Nat
  | .mk i _ _ => i

def Elem.classes : Elem → List String
  | .mk _ cs _ => cs

def Elem.children : Elem → Forest
  | .mk _ _ ch => ch

mutual

/-- The identities occurring in an element's subtree, in preorder. -/
def Elem.ids : Elem → List Nat
  | .mk i _ ch => i :: idsF ch

/-- The identities occurring in a forest, in preorder. -/
def idsF : Forest → List Nat
  | .nil => []
  | .cons e es => e.ids ++ idsF es

end

/-- Model of `element.remove()` applied to the element of identity `x`:
the whole subtree rooted at `x` disappears from the page tree. -/
def removeF (x : Nat) : Forest → Forest
  | .nil => .nil
  | .cons (Elem.mk i cs ch) es =>
    if i = x then removeF x es
    else .cons (Elem.mk i cs (removeF x ch)) (removeF x es)

/-- The subtree rooted at the element of identity `x`, if present. -/
def findF (x : Nat) : Forest → Option Elem
  | .nil => none
  | .cons (Elem.mk i cs ch) es =>
    if i = x then some (Elem.mk i cs ch)
    else
      match findF x ch with
      | some r => some r
      | none => findF x es

/-- The chain of elements from a root down to the element of identity `x`
(inclusive), if that element is present. -/
def chainF (x : Nat) : Forest → Option (List Elem)
  | .nil => none
  | .cons (Elem.mk i cs ch) es =>
    if i = x then some [Elem.mk i cs ch]
    else
      match chainF x ch with
      | some p => some (Elem.mk i cs ch :: p)
      | none => chainF x es

/-- Model of `b.closest(".alert")` for the element of identity `b`: the
nearest ancestor-or-self carrying the class `"alert"`, as its identity. -/
def closestAlert (b : Nat) (page : Forest) : Option Nat :=
  match chainF b page with
  | none => none
  | some p =>
    match p.reverse.find? (fun e => e.classes.contains "alert") with
    | none => none
    | some e => some e.eid

/-- The alert-close click handler (static/js/main.js lines 17-21):
`b.closest(".alert")?.remove()` — optional chaining makes a missing
enclosing alert a no-op. -/
def clickAlertClose (page : Forest) (b : Nat) : Forest :=
  match closestAlert b page with
  | none => page
  | some a => removeF a page

/-- The identities inside the subtree rooted at `a`, or none if `a` is not
in the page tree. -/
def subIds (a : Nat) (page : Forest) : List Nat :=
  match findF a page with
  | none => []
  | some t => t.ids

/-- The spec's scenario 2: three alerts, each with its own close control. -/
def alertPage : Forest :=
  .cons (Elem.mk 10 ["alert"] (.cons (Elem.mk 11 ["alert-close"] .nil) .nil))
    (.cons (Elem.mk 20 ["alert"] (.cons (Elem.mk 21 ["alert-close"] .nil) .nil))
      (.cons (Elem.mk 30 ["alert"] (.cons (Elem.mk 31 ["alert-close"] .nil) .nil))
        .nil))

/-! ### Sidebar toggle (static/js/main.js lines 10-14)

```js
btn.addEventListener("click", () => {
  sidebar.classList.toggle("open");
});
``` -/

/-- Model of `classList.toggle(c)` on a class list: remove the class if
present (a `DOMTokenList` holds no duplicates), add it otherwise. -/
def classToggle (c : String) (cs : List String) : List String :=
  if c ∈ cs then cs.filter (fun x => x != c) else cs ++ [c]

/-- One click on the sidebar toggle control. -/
def sidebarClick (cs : List String) : List String := classToggle "open" cs

/-- `n` successive clicks on the sidebar toggle control. -/
def sidebarClicks : Nat → List String → List String
  | 0, cs => cs
  | n + 1, cs => sidebarClicks n (sidebarClick cs)

/-- The sidebar's presentational open state: its class list carries
`"open"`. -/
def sidebarOpen (cs : List String) : Prop := "open" ∈ cs

instance (cs : List String) : Decidable (sidebarOpen cs) :=
  inferInstanceAs (Decidable ("open" ∈ cs))

/-! ### Initializer wiring (static/js/main.js lines 5-22)

The `getElementById` / `querySelectorAll` lookups are host primitives; the
initializer receives their results: the optional toggle control, the
optional sidebar container, and the close controls found at load time. -/

structure InitResult where
  sidebarHandlerBound : Bool
  alertCloseBound : List Nat
deriving DecidableEq

/-- The `DOMContentLoaded` handler: binds the sidebar click handler only
when both `btnSidebar` and `sidebar` exist (`if (btn && sidebar)`), and one
close handler per `.alert-close` control found. -/
def initUI (btnSidebar sidebar : Option Nat)
    (alertCloseControls : List Nat) : InitResult :=
  { sidebarHandlerBound := btnSidebar.isSome && sidebar.isSome,
    alertCloseBound := alertCloseControls }

/-! ## Theorems -/

/-- C1: for every input action (any string, the empty string, or an absent
argument), `checkAccess` returns `true`; it is a constant function and so
performs no verification of the action. -/
theorem checkAccess_always_true :
    ∀ action : Option String, checkAccess action = true := by
  intro action
  rfl

/-- C2: for absent input and for the empty string, the guarded `formatDate`
returns exactly the empty string; being a total Lean function, it signals
no error. -/
theorem formatDate_empty_or_absent :
    formatDate none = "" ∧ formatDate (some "") = "" := by
  constructor
  · rfl
  · rfl

/-- A string is empty exactly when its character list is. -/
theorem string_eq_empty_iff_data (s : String) : s = "" ↔ s.data = [] := by
  rw [String.ext_iff]

/-- A concatenation whose middle part is nonempty is nonempty. -/
theorem string_append_mid_ne_empty (p mid q : String) (h : mid ≠ "") :
    p ++ mid ++ q ≠ "" := by
  intro hc
  rw [String.ext_iff, String.data_append, String.data_append] at hc
  simp only [List.append_eq_nil] at hc
  exact h (String.ext hc.1.2)

/-- A date produced by validated parsing has a month between 1 and 12. -/
theorem mkValidDate_month {y mo d h mi se : Nat} {dt : JsDate}
    (hp : mkValidDate y mo d h mi se = some dt) :
    1 ≤ dt.month ∧ dt.month ≤ 12 := by
  unfold mkValidDate at hp
  split at hp
  · next hc =>
    cases hp
    exact ⟨hc.1, hc.2.1⟩
  · exact absurd hp (by simp)

/-- Any date returned by the `new Date` model has a month between 1 and
12. -/
theorem jsNewDate_month {s : String} {dt : JsDate}
    (hp : jsNewDate s = some dt) : 1 ≤ dt.month ∧ dt.month ≤ 12 := by
  unfold jsNewDate parseIsoChars at hp
  split at hp <;>
    first
      | exact Option.noConfusion hp
      | (split at hp
         · exact mkValidDate_month hp
         · exact Option.noConfusion hp)

/-- For a month between 1 and 12, the rendered month name is one of the
twelve French long-form month names. -/
theorem frenchMonthName_mem {m : Nat} (h1 : 1 ≤ m) (h2 : m ≤ 12) :
    frenchMonthName m ∈ frenchLongMonths := by
  interval_cases m <;> decide

/-- Every French long-form month name is nonempty. -/
theorem frenchLongMonths_ne_empty :
    ∀ x ∈ frenchLongMonths, x ≠ "" := by decide

/-- C3: the two near-duplicate `formatDate` versions differ exactly on the
empty string: the unguarded copy renders `"Invalid Date"` there while the
guarded one returns `""`; on every non-empty string they agree. -/
theorem formatDate_versions_differ_on_empty :
    formatDate_alt "" = "Invalid Date" ∧ formatDate (some "") = "" ∧
    ∀ s : String, s ≠ "" → formatDate (some s) = formatDate_alt s := by
  refine ⟨rfl, rfl, ?_⟩
  intro s hs
  simp [formatDate, formatDate_alt, hs]

/-- Witness for C3 at the concrete non-empty input `"2024-03-05"`. -/
theorem formatDate_versions_differ_on_empty_witness :
    ("2024-03-05" : String) ≠ "" ∧
    formatDate (some "2024-03-05") = formatDate_alt "2024-03-05" :=
  ⟨by decide, formatDate_versions_differ_on_empty.2.2 "2024-03-05" (by decide)⟩

/-- C4 as stated is false: supplying the empty string as the message
argument shows the default French text, not the provided (empty) message,
because of JavaScript `||` falsiness. -/
theorem confirmDelete_exact_message_counterexample :
    confirmShownMessage (some "") = defaultDeleteMessage ∧
    defaultDeleteMessage ≠ "" := by
  constructor
  · rfl
  · decide

/-- C4 (amended): `confirmDelete` shows exactly the provided message when a
non-empty message is supplied, and the default French confirmation text
when the message is absent or empty; it returns the user's boolean answer
to the prompt (and, being pure in the model, performs no other effect). -/
theorem confirmDelete_message_behavior (message : Option String)
    (user : String → Bool) :
    confirmDelete message user = user (confirmShownMessage message) ∧
    (message = none → confirmShownMessage message = defaultDeleteMessage) ∧
    (message = some "" → confirmShownMessage message = defaultDeleteMessage) ∧
    (∀ m : String, message = some m → m ≠ "" →
      confirmShownMessage message = m) := by
  refine ⟨rfl, ?_, ?_, ?_⟩
  · intro h
    subst h
    rfl
  · intro h
    subst h
    rfl
  · intro m h hm
    subst h
    simp [confirmShownMessage, jsStringOr, hm]

/-- Witness for C4 (amended) at the concrete message `"Supprimer ?"` and a
concrete user oracle. -/
theorem confirmDelete_message_behavior_witness :
    ("Supprimer ?" : String) ≠ "" ∧
    confirmShownMessage (some "Supprimer ?") = "Supprimer ?" :=
  ⟨by decide,
    (confirmDelete_message_behavior (some "Supprimer ?")
      (fun _ => true)).2.2.2 "Supprimer ?" rfl (by decide)⟩

/-- C5 as stated is false: the empty string does not parse as a valid date,
yet the guarded `formatDate` returns `""`, not `"Invalid Date"`, because
its emptiness guard fires first. -/
theorem formatDate_unparsable_counterexample :
    jsNewDate "" = none ∧ formatDate (some "") ≠ "Invalid Date" := by
  constructor
  · rfl
  · decide

/-- C5 (amended): for every NON-EMPTY date string that does not parse as a
valid date, `formatDate` returns the fixed `"Invalid Date"` placeholder
(and, being a total function, signals no error). -/
theorem formatDate_unparsable_nonempty (s : String) (hne : s ≠ "")
    (hinv : jsNewDate s = none) : formatDate (some s) = "Invalid Date" := by
  simp [formatDate, hne, hinv, renderJsDate]

/-- Witness for C5 (amended) at the concrete unparseable input
`"not a date"`. -/
theorem formatDate_unparsable_nonempty_witness :
    ("not a date" : String) ≠ "" ∧ jsNewDate "not a date" = none ∧
    formatDate (some "not a date") = "Invalid Date" :=
  ⟨by decide, by decide,
    formatDate_unparsable_nonempty "not a date" (by decide) (by decide)⟩

/-- C8: for every string that parses as a valid ISO date-time, `formatDate`
returns a nonempty string that contains the full French long-form month
name of the parsed date and its hour:minute portion as substrings. -/
theorem formatDate_valid_iso (s : String) (dt : JsDate)
    (hp : jsNewDate s = some dt) :
    formatDate (some s) ≠ "" ∧
    frenchMonthName dt.month ∈ frenchLongMonths ∧
    (∃ p q : String, formatDate (some s) = p ++ frenchMonthName dt.month ++ q) ∧
    (∃ p q : String,
      formatDate (some s) =
        p ++ (pad2 dt.hour ++ ":" ++ pad2 dt.minute) ++ q) := by
  have hne : s ≠ "" := by
    intro h
    subst h
    exact Option.noConfusion hp
  have hfmt : formatDate (some s) = toLocaleDateString_frFR dt := by
    simp [formatDate, hne, hp, renderJsDate]
  have hmonth := jsNewDate_month hp
  have hmem := frenchMonthName_mem hmonth.1 hmonth.2
  have hmne : frenchMonthName dt.month ≠ "" :=
    frenchLongMonths_ne_empty _ hmem
  have hdec1 : toLocaleDateString_frFR dt =
      (toString dt.day ++ " ") ++ frenchMonthName dt.month ++
      (" " ++ toString dt.year ++ " à " ++ pad2 dt.hour ++ ":" ++
        pad2 dt.minute) := by
    simp [toLocaleDateString_frFR, String.append_assoc]
  have hdec2 : toLocaleDateString_frFR dt =
      (toString dt.day ++ " " ++ frenchMonthName dt.month ++ " " ++
        toString dt.year ++ " à ") ++
      (pad2 dt.hour ++ ":" ++ pad2 dt.minute) ++ "" := by
    simp [toLocaleDateString_frFR, String.append_assoc, String.append_empty]
  refine ⟨?_, hmem, ⟨_, _, hfmt.trans hdec1⟩, ⟨_, _, hfmt.trans hdec2⟩⟩
  rw [hfmt, hdec1]
  exact string_append_mid_ne_empty _ _ _ hmne

/-- Witness for C8 at the concrete valid ISO input
`"2024-03-05T14:30:00"`. -/
theorem formatDate_valid_iso_witness :
    jsNewDate "2024-03-05T14:30:00" = some ⟨2024, 3, 5, 14, 30, 0⟩ ∧
    formatDate (some "2024-03-05T14:30:00") ≠ "" :=
  ⟨by decide,
    (formatDate_valid_iso "2024-03-05T14:30:00" ⟨2024, 3, 5, 14, 30, 0⟩
      (by decide)).1⟩

/-- Sanity rendering of the spec's example scenario: the model produces the
exact "5 mars 2024 à 14:30" shape. -/
theorem formatDate_example_render :
    formatDate (some "2024-03-05T14:30:00") = "5 mars 2024 à 14:30" := by
  decide

/-- One sidebar-toggle click flips the open state. -/
theorem sidebarClick_flips (cs : List String) :
    sidebarOpen (sidebarClick cs) ↔ ¬ sidebarOpen cs := by
  unfold sidebarOpen sidebarClick classToggle
  by_cases h : "open" ∈ cs
  · simp [h, List.mem_filter]
  · simp [h]

/-- C6: for every initial class list and every number of clicks `n` on the
sidebar toggle control, the sidebar's open state after `n` clicks equals
the initial state when `n` is even and the flipped state when `n` is odd
(the toggle is an involution on the open flag). -/
theorem sidebar_toggle_parity (n : Nat) (cs : List String) :
    sidebarOpen (sidebarClicks n cs) ↔
      (if n % 2 = 0 then sidebarOpen cs else ¬ sidebarOpen cs) := by
  induction n generalizing cs with
  | zero => simp [sidebarClicks]
  | succ n ih =>
    have hstep : sidebarClicks (n + 1) cs = sidebarClicks n (sidebarClick cs) :=
      rfl
    rw [hstep, ih (sidebarClick cs)]
    by_cases h : n % 2 = 0
    · have h2 : (n + 1) % 2 ≠ 0 := by omega
      simp [h, h2, sidebarClick_flips cs]
    · have h2 : (n + 1) % 2 = 0 := by omega
      simp [h, h2, sidebarClick_flips cs, not_not]

/-- C9: when the sidebar toggle control or the sidebar container (or both)
is absent, the initializer binds no sidebar handler and still binds exactly
the alert-close handlers of the controls present; being a total function,
it completes without signalling any error. -/
theorem initUI_absent_sidebar (btnSidebar sidebar : Option Nat)
    (controls : List Nat) (h : btnSidebar = none ∨ sidebar = none) :
    (initUI btnSidebar sidebar controls).sidebarHandlerBound = false ∧
    (initUI btnSidebar sidebar controls).alertCloseBound = controls := by
  cases h with
  | inl h =>
    subst h
    simp [initUI]
  | inr h =>
    subst h
    simp [initUI]

/-- Witness for C9 at the concrete empty page environment (the spec's
scenario 1). -/
theorem initUI_absent_sidebar_witness :
    ((none : Option Nat) = none ∨ (none : Option Nat) = none) ∧
    (initUI none none []).sidebarHandlerBound = false ∧
    (initUI none none []).alertCloseBound = ([] : List Nat) :=
  ⟨Or.inl rfl, initUI_absent_sidebar none none [] (Or.inl rfl)⟩

/-- C10: the `confirmDelete` and `checkAccess` functions of the two source
copies are extensionally equal: same prompt message and same returned
answer for every message and user, and the same result for every action. -/
theorem utility_versions_agree :
    (∀ (m : Option String) (u : String → Bool),
      confirmDelete m u = confirmDelete_alt m u ∧
      confirmShownMessage m = confirmShownMessage_alt m) ∧
    (∀ a : Option String, checkAccess a = checkAccess_alt a) :=
  ⟨fun _ _ => ⟨rfl, rfl⟩, fun _ => rfl⟩

/-- Size-based induction principle for page forests. -/
theorem forest_ind {motive : Forest → Prop} (hnil : motive .nil)
    (hcons : ∀ (i : Nat) (cs : List String) (ch es : Forest),
      motive ch → motive es → motive (.cons (Elem.mk i cs ch) es)) :
    ∀ f : Forest, motive f := by
  have key : ∀ (n : Nat) (f : Forest), sizeOf f ≤ n → motive f := by
    intro n
    induction n with
    | zero =>
      intro f hf
      cases f with
      | nil => exact hnil
      | cons e es =>
        refine absurd hf ?_
        cases e
        simp
    | succ n ih =>
      intro f hf
      cases f with
      | nil => exact hnil
      | cons e es =>
        cases e with
        | mk i cs ch =>
          refine hcons i cs ch es (ih ch ?_) (ih es ?_)
          · simp at hf
            omega
          · simp at hf
            omega
  intro f
  exact key (sizeOf f) f (Nat.le_refl _)

/-- Identities of a non-empty forest, unfolded. -/
theorem idsF_cons (i : Nat) (cs : List String) (ch es : Forest) :
    idsF (.cons (Elem.mk i cs ch) es) = i :: (idsF ch ++ idsF es) := by
  simp [idsF, Elem.ids]

/-- Lookup fails exactly for identities absent from the forest. -/
theorem findF_eq_none_iff (a : Nat) :
    ∀ f : Forest, findF a f = none ↔ a ∉ idsF f := by
  refine forest_ind ?_ ?_
  · simp [findF, idsF]
  · intro i cs ch es ihch ihes
    rw [idsF_cons]
    by_cases hi : i = a
    · subst hi
      simp [findF]
    · rw [findF]
      rw [if_neg hi]
      cases hch : findF a ch with
      | some r =>
        simp only [hch]
        have : a ∈ idsF ch := by
          by_contra hc
          rw [← ihch] at hc
          simp [hch] at hc
        simp [this, hi]
      | none =>
        simp only [hch]
        rw [ihes]
        have hach : a ∉ idsF ch := (ihch).mp hch
        constructor
        · intro h hc
          rcases List.mem_cons.mp hc with h1 | h2
          · exact hi h1.symm
          · rcases List.mem_append.mp h2 with h3 | h4
            · exact hach h3
            · exact h h4
        · intro h hc
          exact h (by simp [hc])

/-- The identities of a found subtree all occur in the forest. -/
theorem findF_subset (a : Nat) :
    ∀ f : Forest, ∀ t : Elem, findF a f = some t →
      ∀ x ∈ t.ids, x ∈ idsF f := by
  refine forest_ind ?_ ?_
  · simp [findF]
  · intro i cs ch es ihch ihes t hf x hx
    rw [idsF_cons]
    rw [findF] at hf
    by_cases hi : i = a
    · rw [if_pos hi] at hf
      cases hf
      rcases List.mem_cons.mp (by simpa [Elem.ids] using hx) with h1 | h2
      · simp [h1]
      · simp [h2]
    · rw [if_neg hi] at hf
      cases hch : findF a ch with
      | some r =>
        rw [hch] at hf
        have ht : r = t := by injection hf
        subst ht
        have := ihch r hch x hx
        simp [this]
      | none =>
        rw [hch] at hf
        have := ihes t hf x hx
        simp [this]

/-- Removing an absent identity leaves the forest unchanged. -/
theorem removeF_of_not_mem (a : Nat) :
    ∀ f : Forest, a ∉ idsF f → removeF a f = f := by
  refine forest_ind ?_ ?_
  · simp [removeF]
  · intro i cs ch es ihch ihes h
    rw [idsF_cons] at h
    simp only [List.mem_cons, List.mem_append] at h
    push_neg at h
    rw [removeF, if_neg (fun hc => h.1 hc.symm)]
    rw [ihch h.2.1, ihes h.2.2]

/-- The identities below a node all occur in the forest. -/
theorem subIds_subset (a : Nat) (f : Forest) :
    ∀ x ∈ subIds a f, x ∈ idsF f := by
  unfold subIds
  cases h : findF a f with
  | none => simp
  | some t => exact findF_subset a f t h

/-- Lookup returns the element carrying the looked-up identity. -/
theorem findF_eid (a : Nat) :
    ∀ f : Forest, ∀ t : Elem, findF a f = some t → t.eid = a := by
  refine forest_ind ?_ ?_
  · simp [findF]
  · intro i cs ch es ihch ihes t hf
    rw [findF] at hf
    by_cases hi : i = a
    · rw [if_pos hi] at hf
      cases hf
      exact hi
    · rw [if_neg hi] at hf
      cases hch : findF a ch with
      | some r =>
        rw [hch] at hf
        have ht : r = t := by injection hf
        subst ht
        exact ihch r hch
      | none =>
        rw [hch] at hf
        exact ihes t hf

/-- Frame property of subtree removal: under unique identities, an identity
survives `removeF a` exactly when it was present and does not lie in the
subtree rooted at `a`. -/
theorem mem_removeF (a : Nat) :
    ∀ f : Forest, (idsF f).Nodup →
      ∀ x : Nat, x ∈ idsF (removeF a f) ↔ x ∈ idsF f ∧ x ∉ subIds a f := by
  refine forest_ind ?_ ?_
  · simp [removeF, idsF, subIds, findF]
  · intro i cs ch es ihch ihes hnd x
    rw [idsF_cons] at hnd
    have hnd1 : i ∉ idsF ch ++ idsF es := (List.nodup_cons.mp hnd).1
    have hnd2 := (List.nodup_cons.mp hnd).2
    rw [List.nodup_append] at hnd2
    obtain ⟨hndch, hndes, hdisj⟩ := hnd2
    simp only [List.mem_append] at hnd1
    push_neg at hnd1
    by_cases hi : i = a
    · subst hi
      rw [removeF, if_pos rfl]
      rw [removeF_of_not_mem i es hnd1.2]
      have hsub : subIds i (.cons (Elem.mk i cs ch) es) =
          (Elem.mk i cs ch).ids := by
        simp [subIds, findF]
      rw [hsub, idsF_cons]
      simp only [Elem.ids, List.mem_cons, List.mem_append]
      have h1 : x ∈ idsF es → x ≠ i := fun hx hc => hnd1.2 (hc ▸ hx)
      have h2 : x ∈ idsF es → x ∉ idsF ch := fun hx hc => hdisj hc hx
      constructor
      · intro hx
        exact ⟨Or.inr (Or.inr hx), fun hc => hc.elim (h1 hx) (h2 hx)⟩
      · rintro ⟨hx1, hx2⟩
        rcases hx1 with h | h | h
        · exact absurd (Or.inl h) hx2
        · exact absurd (Or.inr h) hx2
        · exact h
    · rw [removeF, if_neg hi]
      rw [idsF_cons, idsF_cons]
      simp only [List.mem_cons, List.mem_append]
      cases hch : findF a ch with
      | some r =>
        have har : a ∈ idsF ch := by
          by_contra hc
          rw [← findF_eq_none_iff] at hc
          rw [hch] at hc
          exact Option.noConfusion hc
        have haes : a ∉ idsF es := fun hc => hdisj har hc
        rw [removeF_of_not_mem a es haes]
        have hsub : subIds a (.cons (Elem.mk i cs ch) es) = r.ids := by
          simp [subIds, findF, if_neg hi, hch]
        rw [hsub]
        have hsubch : subIds a ch = r.ids := by simp [subIds, hch]
        have hiff := ihch hndch x
        rw [hsubch] at hiff
        rw [hiff]
        have hrsub : ∀ y ∈ r.ids, y ∈ idsF ch := findF_subset a ch r hch
        have hir : x = i → x ∉ r.ids := fun hc hr => hnd1.1 (hc ▸ hrsub x hr)
        have hesr : x ∈ idsF es → x ∉ r.ids :=
          fun hx hr => hdisj (hrsub x hr) hx
        constructor
        · rintro (h | h | h)
          · exact ⟨Or.inl h, hir h⟩
          · exact ⟨Or.inr (Or.inl h.1), h.2⟩
          · exact ⟨Or.inr (Or.inr h), hesr h⟩
        · rintro ⟨h | h | h, hr⟩
          · exact Or.inl h
          · exact Or.inr (Or.inl ⟨h, hr⟩)
          · exact Or.inr (Or.inr h)
      | none =>
        have hach : a ∉ idsF ch := (findF_eq_none_iff a ch).mp hch
        rw [removeF_of_not_mem a ch hach]
        have hsub : subIds a (.cons (Elem.mk i cs ch) es) = subIds a es := by
          simp [subIds, findF, if_neg hi, hch]
        rw [hsub]
        have hiff := ihes hndes x
        rw [hiff]
        have hessub := subIds_subset a es
        have hie : x = i → x ∉ subIds a es :=
          fun hc hr => hnd1.2 (hc ▸ hessub x hr)
        have hche : x ∈ idsF ch → x ∉ subIds a es :=
          fun hx hr => hdisj hx (hessub x hr)
        constructor
        · rintro (h | h | h)
          · exact ⟨Or.inl h, hie h⟩
          · exact ⟨Or.inr (Or.inl h), hche h⟩
          · exact ⟨Or.inr (Or.inr h.1), h.2⟩
        · rintro ⟨h | h | h, hr⟩
          · exact Or.inl h
          · exact Or.inr (Or.inl h)
          · exact Or.inr (Or.inr ⟨h, hr⟩)

/-- A present identity lies in its own subtree. -/
theorem mem_subIds_self (a : Nat) (f : Forest) (h : a ∈ idsF f) :
    a ∈ subIds a f := by
  cases hf : findF a f with
  | none => exact absurd h (by rw [← findF_eq_none_iff]; exact hf)
  | some t =>
    have heid := findF_eid a f t hf
    unfold subIds
    rw [hf]
    cases t with
    | mk i cs ch =>
      simp [Elem.eid] at heid
      simp [Elem.ids, heid]

/-- C7: for every page tree with unique element identities and every
clicked close control `b`: if `b` has no enclosing `.alert`
ancestor-or-self, the click leaves the page tree entirely unchanged (and
signals no error); if its closest alert is `a`, the click removes exactly
the alert `a` (with its subtree) — `a` is gone, and an element survives
exactly when it was present and is not part of the removed alert, so every
element outside the removed alert, in particular every other alert, is
untouched. -/
theorem alert_close_click (page : Forest) (b : Nat)
    (hnd : (idsF page).Nodup) :
    (closestAlert b page = none → clickAlertClose page b = page) ∧
    (∀ a : Nat, closestAlert b page = some a →
      a ∉ idsF (clickAlertClose page b) ∧
      ∀ x : Nat, x ∈ idsF (clickAlertClose page b) ↔
        x ∈ idsF page ∧ x ∉ subIds a page) := by
  constructor
  · intro h
    simp [clickAlertClose, h]
  · intro a ha
    have hres : clickAlertClose page b = removeF a page := by
      simp [clickAlertClose, ha]
    rw [hres]
    have hmem := mem_removeF a page hnd
    refine ⟨?_, hmem⟩
    intro hc
    rw [hmem a] at hc
    exact hc.2 (mem_subIds_self a page hc.1)

/-- Witness for C7 on the spec's scenario 2: clicking the close control of
the second of three alerts removes that alert and keeps the first. -/
theorem alert_close_click_witness :
    (idsF alertPage).Nodup ∧
    closestAlert 21 alertPage = some 20 ∧
    20 ∉ idsF (clickAlertClose alertPage 21) ∧
    (10 ∈ idsF (clickAlertClose alertPage 21) ↔
      10 ∈ idsF alertPage ∧ 10 ∉ subIds 20 alertPage) := by
  have h := alert_close_click alertPage 21 (by decide)
  have h2 := h.2 20 (by decide)
  exact ⟨by decide, by decide, h2.1, h2.2 10⟩
